import Mathlib

/-!
# Verification of the serde-xdr traversal engine

Shallow embedding of the XDR encoder/decoder in `src/serializer.rs`,
`src/deserializer.rs`, `src/errors.rs` and `src/lib.rs`, together with
theorems settling the specification claims.

Bytes are modelled as `Nat` (values `< 256` on any real wire), byte
streams as `List Nat`, Rust `Result<T, EncoderError>` as
`Except String T`, and code that may `panic` (via `unwrap` on a parse,
or an arithmetic underflow) by an explicit `RunResult` outcome.
-/

set_option autoImplicit false

namespace SerdeXdr

/-- Big-endian byte rendering of an unsigned 32-bit write
(`write_u32::<BigEndian>` from the byteorder crate). -/
def u32be (n : Nat) : List Nat :=
  [n / 2 ^ 24 % 256, n / 2 ^ 16 % 256, n / 2 ^ 8 % 256, n % 256]

/-- Big-endian byte rendering of a signed 32-bit write
(`write_i32::<BigEndian>`): two's complement, i.e. the bytes of
`v mod 2^32`. -/
def i32be (v : Int) : List Nat :=
  u32be ((v % (2 ^ 32 : Int)).toNat)

/-- Read a big-endian unsigned 32-bit integer from the head of a byte
stream (`read_u32::<BigEndian>`); `none` models the underlying
`io::Error` when fewer than 4 bytes remain. -/
def readU32 (input : List Nat) : Option (Nat × List Nat) :=
  match input with
  | b0 :: b1 :: b2 :: b3 :: rest =>
      some (((b0 * 256 + b1) * 256 + b2) * 256 + b3, rest)
  | _ => none

/-- Read one byte (`read_u8`); `none` models the io error at end of
input. -/
def readU8 (input : List Nat) : Option (Nat × List Nat) :=
  match input with
  | b :: rest => some (b, rest)
  | [] => none

/-- Read `n` raw bytes from the stream (the `for c in 0..count` loop of
one-byte reads in `deserialize_string`). -/
def readBytes : Nat → List Nat → Option (List Nat × List Nat)
  | 0, input => some ([], input)
  | n + 1, input =>
    match input with
    | [] => none
    | b :: rest =>
      match readBytes n rest with
      | none => none
      | some (bs, rest2) => some (b :: bs, rest2)

/-- Rust's `str::parse::<u32>` on a list of characters after the
optional leading sign has been stripped: at least one character, all
ASCII digits, and the value must fit in 32 bits (`PosOverflow`
otherwise). -/
def parseU32Digits (cs : List Char) : Option Nat :=
  if cs = [] then none
  else if cs.all (fun c => c.isDigit) then
    let v := cs.foldl (fun acc c => acc * 10 + (c.toNat - 48)) 0
    if v < 2 ^ 32 then some v else none
  else none

/-- Rust's `variant.parse::<u32>()`: an optional leading `+`, then one
or more ASCII digits whose value fits in an unsigned 32-bit integer. -/
def parseU32 (s : String) : Option Nat :=
  match s.data with
  | '+' :: rest => parseU32Digits rest
  | cs => parseU32Digits cs

/-- Outcome of running a piece of Rust code that may also `panic`. -/
inductive RunResult (α : Type) where
  | ok (val : α)
  | err (msg : String)
  | panicked
  deriving Repr, DecidableEq

/-- The error message of `VariantVisitor::variant_seed` when no declared
variant name parses to the wire selector. -/
def unionBadIndexMsg : String :=
  "Bad Index for Union, the codegen annotations are broken probably"

/-- The io error message surfaced when the byte source runs dry. -/
def ioEofMsg : String :=
  "failed to fill whole buffer"

/-- Outcome of
`variants.iter().map(|x| x.parse::<u32>().unwrap()).position(|x| x == enum_index)`:
names are parsed lazily in declaration order; a name that fails to parse
before a match is found makes the `unwrap` panic; otherwise the position
of the first name parsing to the selector is returned if one exists. -/
inductive FindOutcome where
  | found (idx : Nat)
  | notFound
  | panicked
  deriving Repr, DecidableEq

/-- The lazy parse-and-position scan of `variant_seed`'s union branch. -/
def findParsedPosition : List String → Nat → FindOutcome
  | [], _ => FindOutcome.notFound
  | v :: rest, sel =>
    match parseU32 v with
    | none => FindOutcome.panicked
    | some k =>
      if k = sel then FindOutcome.found 0
      else
        match findParsedPosition rest sel with
        | FindOutcome.found idx => FindOutcome.found (idx + 1)
        | other => other

/-- The union arm of `VariantVisitor::variant_seed` after the selector
`enum_index` has been read from the wire: `union_index` starts at
`variants.len() - 1` (a subtraction that underflows, hence panics, on an
empty variant list); only when `enum_index < variants.len()` are the
declared names scanned, and a failed scan yields the bad-index error;
otherwise the initial last-position value is kept. -/
def resolveUnion (variants : List String) (enum_index : Nat) : RunResult Nat :=
  if variants.length = 0 then RunResult.panicked
  else
    let union_index := variants.length - 1
    if enum_index < variants.length then
      match findParsedPosition variants enum_index with
      | FindOutcome.found idx => RunResult.ok idx
      | FindOutcome.notFound => RunResult.err unionBadIndexMsg
      | FindOutcome.panicked => RunResult.panicked
    else RunResult.ok union_index

/-- The method `variant_seed` for a union, from the wire: reads the unsigned-32
selector (adding 4 to the consumed counter), then resolves the local
variant position. -/
def variant_seed_union (variants : List String) (input : List Nat)
    (consumed : Nat) : RunResult (Nat × List Nat × Nat) :=
  match readU32 input with
  | none => RunResult.err ioEofMsg
  | some (enum_index, rest) =>
    match resolveUnion variants enum_index with
    | RunResult.ok idx => RunResult.ok (idx, rest, consumed + 4)
    | RunResult.err m => RunResult.err m
    | RunResult.panicked => RunResult.panicked

/-- UTF-8 byte size of one unicode scalar value; Rust's `str::len` is
the sum of these over the string's characters. -/
def utf8Size (c : Nat) : Nat :=
  if c < 0x80 then 1 else if c < 0x800 then 2
  else if c < 0x10000 then 3 else 4

/-- Rust `val.len()` on a string modelled as its list of unicode scalar
values: the UTF-8 byte length. -/
def utf8Len (s : List Nat) : Nat := (s.map utf8Size).sum

/-- Model of `serialize_char`: `val as u8` truncates the scalar value to its low
8 bits and writes a single byte. -/
def serialize_char (c : Nat) : List Nat := [c % 256]

/-- Model of `serialize_str`: unsigned-32 big-endian header holding the string's
byte length (`val.len() as u32` truncates modulo `2^32`), then one byte
per character via `serialize_char`, then `4 - val.len() % 4` zero bytes
of padding. -/
def serialize_str (s : List Nat) : List Nat :=
  u32be (utf8Len s % 2 ^ 32)
    ++ (s.map serialize_char).flatten
    ++ List.replicate (4 - utf8Len s % 4) 0

/-- Model of `serialize_bool`: one byte, 1 for true and 0 for false. -/
def serialize_bool (v : Bool) : List Nat := [if v then 1 else 0]

/-- Model of `serialize_unit_variant`: writes the serde-supplied `variant_index`
through `serialize_i32` (the `as i32` cast reinterprets the unsigned
index; the wire bytes are its value modulo `2^32`). -/
def serialize_unit_variant (variant_index : Nat) : List Nat :=
  i32be (Int.ofNat (variant_index % 2 ^ 32))

/-- The wire selector computed by `serialize_struct_variant`: the
declared variant name is parsed as `u32`; on success the parsed value is
the selector, otherwise `(variant_idx + 1) as u32` is used. -/
def struct_variant_selector (variant_idx : Nat) (variant : String) : Nat :=
  match parseU32 variant with
  | some idx => idx
  | none => (variant_idx + 1) % 2 ^ 32

/-- Model of `serialize_struct_variant`: the unsigned-32 selector bytes are
written first, then the variant's payload fields. -/
def serialize_struct_variant (variant_idx : Nat) (variant : String)
    (payload : List Nat) : List Nat :=
  u32be (struct_variant_selector variant_idx variant) ++ payload

/-- Modelled after the `xdr_enum!` macro in `lib.rs`: an enum type is a
declared table of `(variant name, declared numeric value)` pairs, and
`Serialize` writes `*self as i32`, i.e. the declared value of the chosen
variant, through `serialize_i32`. -/
def xdr_enum_serialize (table : List (String × Int)) (i : Fin table.length) :
    List Nat :=
  i32be (table.get i).2

/-- The domain-violation message of `deserialize_bool`. -/
def boolDomainMsg : String :=
  "invalid u8 when decoding bool, 0 or 1 needed"

/-- Reinterpret 4 big-endian bytes read as `u32` into the signed value
`read_i32::<BigEndian>` would produce. -/
def toSigned32 (n : Nat) : Int :=
  if n < 2 ^ 31 then Int.ofNat n else Int.ofNat n - 2 ^ 32

mutual
/-- Values whose shapes both sides of the engine implement. Strings are
lists of unicode scalar values. -/
inductive XdrValue where
  | u8V (n : Nat)
  | u32V (n : Nat)
  | i32V (v : Int)
  | boolV (b : Bool)
  | strV (cps : List Nat)
  | seqV (elems : XdrValueList)
  | structV (fields : XdrValueList)
inductive XdrValueList where
  | nil
  | cons (head : XdrValue) (tail : XdrValueList)
end

/-- Number of elements in a value list. -/
def XdrValueList.length : XdrValueList → Nat
  | XdrValueList.nil => 0
  | XdrValueList.cons _ rest => 1 + rest.length

mutual
/-- The shape a target type advertises to the decoder: primitive kinds,
homogeneous sequences, and structs with an ordered field-shape list. -/
inductive Shape where
  | u8T
  | u32T
  | i32T
  | boolT
  | strT
  | seqT (elem : Shape)
  | structT (fields : ShapeFields)
inductive ShapeFields where
  | nil
  | cons (head : Shape) (tail : ShapeFields)
end

mutual
/-- The encoder's walk of a value (`Serializer` plus the `Compound`
helpers): primitives through the `serialize_*` methods, sequences via
`serialize_seq` (unsigned-32 count then each element), structs via
`serialize_struct` (fields in order, no framing). -/
def encodeVal : XdrValue → List Nat
  | XdrValue.u8V n => [n % 256]
  | XdrValue.u32V n => u32be (n % 2 ^ 32)
  | XdrValue.i32V v => i32be v
  | XdrValue.boolV b => serialize_bool b
  | XdrValue.strV s => serialize_str s
  | XdrValue.seqV es => u32be (es.length % 2 ^ 32) ++ encodeList es
  | XdrValue.structV fs => encodeList fs
/-- Encode a list of values back to back (`serialize_element` /
`serialize_field` calls in order). -/
def encodeList : XdrValueList → List Nat
  | XdrValueList.nil => []
  | XdrValueList.cons v rest => encodeVal v ++ encodeList rest
end

/-- Model of `deserialize_string`: reads the unsigned-32 count, then `count`
single bytes (each pushed as one character); the padding bytes are not
read from the source — only `extra_bytes + count + 4` is added to the
consumed counter. -/
def deserialize_string (input : List Nat) (consumed : Nat) :
    Except String (List Nat × List Nat × Nat) :=
  match readU32 input with
  | none => Except.error ioEofMsg
  | some (count, rest) =>
    let extra_bytes := 4 - count % 4
    match readBytes count rest with
    | none => Except.error ioEofMsg
    | some (accum, rest2) =>
      Except.ok (accum, rest2, consumed + (extra_bytes + count + 4))

/-- Model of `deserialize_bool`: deserializes one unsigned-8 byte (adding 1 to
the consumed counter), then maps 1 to true and 0 to false; any other
byte value is a domain violation. -/
def deserialize_bool (input : List Nat) (consumed : Nat) :
    Except String (Bool × List Nat × Nat) :=
  match readU8 input with
  | none => Except.error ioEofMsg
  | some (value, rest) =>
    if value = 1 then Except.ok (true, rest, consumed + 1)
    else if value = 0 then Except.ok (false, rest, consumed + 1)
    else Except.error boolDomainMsg

/-- The element loop a sequence visitor drives through
`SeqVisitor::next_element_seed` once the count is cached: decode one
element with the seed and decrement, `n` times in total. -/
def decodeElemsWith
    (dec : List Nat → Nat → Except String (XdrValue × List Nat × Nat)) :
    Nat → List Nat → Nat → Except String (XdrValueList × List Nat × Nat)
  | 0, input, consumed => Except.ok (XdrValueList.nil, input, consumed)
  | n + 1, input, consumed =>
    match dec input consumed with
    | Except.error m => Except.error m
    | Except.ok (v, rest, c2) =>
      match decodeElemsWith dec n rest c2 with
      | Except.error m => Except.error m
      | Except.ok (vs, rest2, c3) =>
        Except.ok (XdrValueList.cons v vs, rest2, c3)

mutual
/-- The decoder's walk of a target shape (`Deserializer`): primitives
through the `deserialize_*` methods, sequences via `deserialize_seq`
(the first `next_element_seed` call reads the unsigned-32 count, then
counts down one element per call), structs via `deserialize_struct`
(field count from the schema, no framing read). -/
def decodeVal : Shape → List Nat → Nat → Except String (XdrValue × List Nat × Nat)
  | Shape.u8T, input, consumed =>
    match readU8 input with
    | none => Except.error ioEofMsg
    | some (b, rest) => Except.ok (XdrValue.u8V b, rest, consumed + 1)
  | Shape.u32T, input, consumed =>
    match readU32 input with
    | none => Except.error ioEofMsg
    | some (n, rest) => Except.ok (XdrValue.u32V n, rest, consumed + 4)
  | Shape.i32T, input, consumed =>
    match readU32 input with
    | none => Except.error ioEofMsg
    | some (n, rest) => Except.ok (XdrValue.i32V (toSigned32 n), rest, consumed + 4)
  | Shape.boolT, input, consumed =>
    match deserialize_bool input consumed with
    | Except.error m => Except.error m
    | Except.ok (b, rest, c2) => Except.ok (XdrValue.boolV b, rest, c2)
  | Shape.strT, input, consumed =>
    match deserialize_string input consumed with
    | Except.error m => Except.error m
    | Except.ok (cps, rest, c2) => Except.ok (XdrValue.strV cps, rest, c2)
  | Shape.seqT elem, input, consumed =>
    match readU32 input with
    | none => Except.error ioEofMsg
    | some (count, rest) =>
      match decodeElemsWith (fun inp c => decodeVal elem inp c) count rest
          (consumed + 4) with
      | Except.error m => Except.error m
      | Except.ok (elems, rest2, c2) =>
        Except.ok (XdrValue.seqV elems, rest2, c2)
  | Shape.structT fs, input, consumed =>
    match decodeFields fs input consumed with
    | Except.error m => Except.error m
    | Except.ok (fields, rest, c2) =>
      Except.ok (XdrValue.structV fields, rest, c2)
/-- Decode each field of a struct in declared order. -/
def decodeFields : ShapeFields → List Nat → Nat → Except String (XdrValueList × List Nat × Nat)
  | ShapeFields.nil, input, consumed =>
    Except.ok (XdrValueList.nil, input, consumed)
  | ShapeFields.cons s rest, input, consumed =>
    match decodeVal s input consumed with
    | Except.error m => Except.error m
    | Except.ok (v, input2, c2) =>
      match decodeFields rest input2 c2 with
      | Except.error m => Except.error m
      | Except.ok (vs, input3, c3) =>
        Except.ok (XdrValueList.cons v vs, input3, c3)
end

/-- One call of `SeqVisitor::next_element_seed`: a `None` cached length is
first filled by reading the unsigned-32 count from the wire (adding 4 to
the consumed counter); then a positive cached count is decremented and
one element is deserialized with the supplied seed, while a zero count
signals end-of-sequence. -/
def next_element_seed
    (seed : List Nat → Nat → Except String (XdrValue × List Nat × Nat))
    (len : Option Nat) (input : List Nat) (consumed : Nat) :
    Except String (Option XdrValue × Option Nat × List Nat × Nat) :=
  let filled : Except String (Nat × List Nat × Nat) :=
    match len with
    | some l => Except.ok (l, input, consumed)
    | none =>
      match readU32 input with
      | none => Except.error ioEofMsg
      | some (l, rest) => Except.ok (l, rest, consumed + 4)
  match filled with
  | Except.error m => Except.error m
  | Except.ok (l, input2, c2) =>
    if l > 0 then
      match seed input2 c2 with
      | Except.error m => Except.error m
      | Except.ok (v, rest, c3) =>
        Except.ok (some v, some (l - 1), rest, c3)
    else Except.ok (none, some l, input2, c2)

/-- Model of `to_bytes`: run the encoder against a fresh buffer. -/
def to_bytes (value : XdrValue) : List Nat := encodeVal value

/-- Model of `from_bytes` and `from_reader`: run the decoder with a fresh consumed
counter and return the value together with `get_bytes_consumed()`. -/
def from_bytes (shape : Shape) (v : List Nat) :
    Except String (XdrValue × Nat) :=
  match decodeVal shape v 0 with
  | Except.error m => Except.error m
  | Except.ok (value, _, consumed) => Except.ok (value, consumed)
/-! ## Helper lemmas -/

/-- Reading back a big-endian unsigned-32 write recovers the value. -/
theorem readU32_u32be (n : Nat) (h : n < 2 ^ 32) (rest : List Nat) :
    readU32 (u32be n ++ rest) = some (n, rest) := by
  simp only [u32be, List.cons_append, List.nil_append, readU32]
  congr 1
  congr 1
  omega

/-- The rendering `u32be` is injective on 32-bit values. -/
theorem u32be_inj {a b : Nat} (ha : a < 2 ^ 32) (hb : b < 2 ^ 32)
    (h : u32be a = u32be b) : a = b := by
  have h2 := readU32_u32be a ha []
  rw [h, readU32_u32be b hb []] at h2
  injection h2 with h3
  injection h3 with h4 h5
  exact h4.symm

/-- Every unicode scalar value occupies at least one UTF-8 byte. -/
theorem one_le_utf8Size (c : Nat) : 1 ≤ utf8Size c := by
  unfold utf8Size
  repeat' split
  all_goals omega

/-- The UTF-8 byte length dominates the character count. -/
theorem length_le_utf8Len (s : List Nat) : s.length ≤ utf8Len s := by
  induction s with
  | nil => simp [utf8Len]
  | cons c rest ih =>
    have := one_le_utf8Size c
    simp only [utf8Len, List.map_cons, List.sum_cons, List.length_cons] at *
    omega

/-- With only single-byte characters the UTF-8 length is the character
count. -/
theorem utf8Len_eq_length (s : List Nat) (h : ∀ c ∈ s, utf8Size c = 1) :
    utf8Len s = s.length := by
  induction s with
  | nil => simp [utf8Len]
  | cons c rest ih =>
    have hc := h c (by simp)
    have hrest := ih fun x hx => h x (by simp [hx])
    simp only [utf8Len, List.map_cons, List.sum_cons, List.length_cons] at *
    omega

/-- A character needing more than one UTF-8 byte makes the byte length
strictly exceed the character count. -/
theorem length_lt_utf8Len (s : List Nat) (c : Nat) (hc : c ∈ s)
    (hbig : 1 < utf8Size c) : s.length < utf8Len s := by
  induction s with
  | nil => simp at hc
  | cons d rest ih =>
    rcases List.mem_cons.mp hc with h | h
    · have := length_le_utf8Len rest
      subst h
      simp only [utf8Len, List.map_cons, List.sum_cons, List.length_cons] at *
      omega
    · have := ih h
      have := one_le_utf8Size d
      simp only [utf8Len, List.map_cons, List.sum_cons, List.length_cons] at *
      omega

/-- One byte per character: flattening the `serialize_char` writes is a
low-8-bit truncation map. -/
theorem flatten_serialize_char (s : List Nat) :
    (s.map serialize_char).flatten = s.map (fun c => c % 256) := by
  induction s with
  | nil => rfl
  | cons c rest ih => simp [serialize_char, ih]

/-- A `found` outcome of the name scan names a position inside the list
whose declared name parses to the selector. -/
theorem findParsedPosition_found (vs : List String) (sel idx : Nat)
    (h : findParsedPosition vs sel = FindOutcome.found idx) :
    ∃ hlt : idx < vs.length, parseU32 (vs.get ⟨idx, hlt⟩) = some sel := by
  induction vs generalizing idx with
  | nil => simp [findParsedPosition] at h
  | cons v rest ih =>
    simp only [findParsedPosition] at h
    match hp : parseU32 v with
    | none => rw [hp] at h; cases h
    | some k =>
      rw [hp] at h
      by_cases hk : k = sel
      · subst hk
        simp only [if_pos rfl] at h
        cases h
        exact ⟨Nat.succ_pos _, by simpa using hp⟩
      · simp only [if_neg hk] at h
        match hrec : findParsedPosition rest sel with
        | FindOutcome.found j =>
          rw [hrec] at h
          cases h
          obtain ⟨hlt, hparse⟩ := ih j hrec
          exact ⟨Nat.succ_lt_succ hlt, by simpa using hparse⟩
        | FindOutcome.notFound => rw [hrec] at h; cases h
        | FindOutcome.panicked => rw [hrec] at h; cases h

/-- The name scan cannot panic when every declared name parses. -/
theorem findParsedPosition_ne_panicked (vs : List String) (sel : Nat)
    (h : ∀ v ∈ vs, (parseU32 v).isSome) :
    findParsedPosition vs sel ≠ FindOutcome.panicked := by
  induction vs with
  | nil => simp [findParsedPosition]
  | cons v rest ih =>
    simp only [findParsedPosition]
    match hp : parseU32 v with
    | none =>
      have := h v (by simp)
      rw [hp] at this
      cases this
    | some k =>
      by_cases hk : k = sel
      · simp [hk]
      · have hrest := ih fun x hx => h x (by simp [hx])
        simp only [if_neg hk]
        match hrec : findParsedPosition rest sel with
        | FindOutcome.found j => simp
        | FindOutcome.notFound => simp
        | FindOutcome.panicked => exact absurd hrec hrest

/-- The union resolution step cannot panic when the variant list is
non-empty and every declared name parses as an unsigned 32-bit
integer. -/
theorem resolveUnion_ne_panicked (variants : List String) (sel : Nat)
    (hne : variants ≠ []) (hp : ∀ v ∈ variants, (parseU32 v).isSome) :
    resolveUnion variants sel ≠ RunResult.panicked := by
  unfold resolveUnion
  have hlen : ¬ variants.length = 0 := by
    intro h0
    exact hne (List.length_eq_zero.mp h0)
  simp only [if_neg hlen]
  by_cases hlt : sel < variants.length
  · simp only [if_pos hlt]
    cases hf : findParsedPosition variants sel with
    | found i => simp only [hf]; intro h; cases h
    | notFound => simp only [hf]; intro h; cases h
    | panicked => exact absurd hf (findParsedPosition_ne_panicked variants sel hp)
  · simp only [if_neg hlt]
    intro h
    cases h

/-- Reading with `readBytes` returns exactly the requested bytes and leaves the rest
of the stream untouched. -/
theorem readBytes_exact (data rest : List Nat) :
    readBytes data.length (data ++ rest) = some (data, rest) := by
  induction data with
  | nil => rfl
  | cons b bs ih => simp [readBytes, ih]

/-- Reading back a big-endian unsigned-32 write that ends the stream. -/
theorem readU32_u32be_nil (n : Nat) (h : n < 2 ^ 32) :
    readU32 (u32be n) = some (n, []) := by
  have h2 := readU32_u32be n h []
  rwa [List.append_nil] at h2

/-- Decoding an unsigned 32-bit value undoes its encoding and advances
the consumed counter by 4. -/
theorem decodeVal_u32 (a : Nat) (ha : a < 2 ^ 32) (rest : List Nat)
    (consumed : Nat) :
    decodeVal Shape.u32T (u32be a ++ rest) consumed =
      Except.ok (XdrValue.u32V a, rest, consumed + 4) := by
  simp only [decodeVal, readU32_u32be a ha rest]

/-! ## Claim theorems -/

/-- C1 is false as stated: with declared variant names `["0", "1"]` no
name parses to the wire selector 5, yet decoding does not fail with the
bad-index error — the selector is at least the list length, so the last
variant (position 1) is silently chosen. -/
theorem C1_unmatched_selector_counterexample :
    (∀ i < 2, parseU32 ((["0", "1"] : List String).getD i "") ≠ some 5) ∧
    variant_seed_union ["0", "1"] (u32be 5) 0 = RunResult.ok (1, [], 4) := by
  constructor
  · decide
  · decide

/-- C1 (amended): a union decode reads the unsigned-32 wire selector;
when the selector is below the declared list length, the variant at the
position of the declared name that parses to the selector is chosen, and
the decode fails with the bad-index error if no declared name parses to
it; when the selector is at least the list length, the last declared
variant is chosen without consulting the names. -/
theorem C1_union_selector_resolution (variants : List String) (sel : Nat)
    (input : List Nat) (consumed : Nat) (hsel : sel < 2 ^ 32) :
    (sel < variants.length →
      (∀ idx, findParsedPosition variants sel = FindOutcome.found idx →
        variant_seed_union variants (u32be sel ++ input) consumed =
            RunResult.ok (idx, input, consumed + 4) ∧
        ∃ hlt : idx < variants.length,
          parseU32 (variants.get ⟨idx, hlt⟩) = some sel) ∧
      (findParsedPosition variants sel = FindOutcome.notFound →
        variant_seed_union variants (u32be sel ++ input) consumed =
          RunResult.err unionBadIndexMsg)) ∧
    (variants.length ≤ sel → variants ≠ [] →
      variant_seed_union variants (u32be sel ++ input) consumed =
        RunResult.ok (variants.length - 1, input, consumed + 4)) := by
  have hread : readU32 (u32be sel ++ input) = some (sel, input) :=
    readU32_u32be sel hsel input
  refine ⟨fun hlt => ⟨fun idx hfound => ?_, fun hnone => ?_⟩, fun hge hne => ?_⟩
  · refine ⟨?_, findParsedPosition_found variants sel idx hfound⟩
    have hlen : ¬ variants.length = 0 := by omega
    simp only [variant_seed_union, hread, resolveUnion, if_neg hlen, if_pos hlt,
      hfound]
  · have hlen : ¬ variants.length = 0 := by omega
    simp only [variant_seed_union, hread, resolveUnion, if_neg hlen, if_pos hlt,
      hnone]
  · have hlen : ¬ variants.length = 0 := by
      intro h0
      exact hne (List.length_eq_zero.mp h0)
    have hnlt : ¬ sel < variants.length := by omega
    simp only [variant_seed_union, hread, resolveUnion, if_neg hlen, if_neg hnlt]

/-- Witness for C1 (amended), exercising the name-match branch: names
`["1", "0"]` with wire selector 0 choose position 1. -/
theorem C1_union_selector_resolution_witness :
    variant_seed_union ["1", "0"] (u32be 0 ++ []) 0 =
      RunResult.ok (1, [], 0 + 4) :=
  (((C1_union_selector_resolution ["1", "0"] 0 [] 0 (by decide)).1
    (by decide)).1 1 (by decide)).1

/-- C10 is false as stated: a declared list containing the non-numeric
name `"abc"` makes `variant_seed` panic (the `unwrap` on the parse) on
wire selector 0, rather than return a variant or an error. -/
theorem C10_variant_seed_panics_counterexample :
    variant_seed_union ["abc"] (u32be 0) 0 = RunResult.panicked := by decide

/-- C10 (amended): union variant resolution is panic-free provided the
declared list is non-empty and every declared name parses as an unsigned
32-bit integer; under those conditions `variant_seed` either resolves a
variant or returns an error for every selector and every input. -/
theorem C10_variant_seed_no_panic (variants : List String) (input : List Nat)
    (consumed : Nat) (hne : variants ≠ [])
    (hp : ∀ v ∈ variants, (parseU32 v).isSome) :
    variant_seed_union variants input consumed ≠ RunResult.panicked := by
  unfold variant_seed_union
  cases hr : readU32 input with
  | none => simp only [hr]; intro h; cases h
  | some p =>
    obtain ⟨sel, rest⟩ := p
    simp only [hr]
    cases hres : resolveUnion variants sel with
    | ok i => simp only [hres]; intro h; cases h
    | err m => simp only [hres]; intro h; cases h
    | panicked => exact absurd hres (resolveUnion_ne_panicked variants sel hne hp)

/-- Witness for C10 (amended) at the all-numeric list `["0"]`. -/
theorem C10_variant_seed_no_panic_witness :
    variant_seed_union ["0"] [] 0 ≠ RunResult.panicked :=
  C10_variant_seed_no_panic ["0"] [] 0 (by decide) (by decide)

/-- C5 is false as stated: for the non-numeric declared variant name
`"abc"` there is no integer the name parses back to, yet encoding still
writes a selector (namely `variant_idx + 1`), so the claimed parse-back
rule does not describe this encode. -/
theorem C5_nonnumeric_name_counterexample :
    ¬ ∃ k : Nat, parseU32 "abc" = some k ∧
        serialize_struct_variant 0 "abc" [] = u32be k := by
  rintro ⟨k, hk, -⟩
  have hnone : parseU32 "abc" = none := by decide
  rw [hnone] at hk
  cases hk

/-- C5 (amended): when the chosen variant's declared name parses as an
unsigned 32-bit integer, that integer is written as the unsigned-32 wire
selector before the payload; when the name does not parse,
`variant_idx + 1` is written instead. -/
theorem C5_union_selector_encoding (variant_idx : Nat) (variant : String)
    (payload : List Nat) :
    (∀ k, parseU32 variant = some k →
      serialize_struct_variant variant_idx variant payload =
        u32be k ++ payload) ∧
    (parseU32 variant = none →
      serialize_struct_variant variant_idx variant payload =
        u32be ((variant_idx + 1) % 2 ^ 32) ++ payload) := by
  unfold serialize_struct_variant struct_variant_selector
  constructor
  · intro k hk
    rw [hk]
  · intro hk
    rw [hk]

/-- Witness for C5 (amended): the numeric name `"5"` writes selector 5
ahead of the payload. -/
theorem C5_union_selector_encoding_witness :
    serialize_struct_variant 3 "5" [9] = u32be 5 ++ [9] :=
  (C5_union_selector_encoding 3 "5" [9]).1 5 (by decide)

/-- C7: boolean decode reads exactly one byte — 0 decodes to false, 1 to
true, and any other byte value fails with the domain-violation error. -/
theorem C7_bool_domain (b : Nat) (rest : List Nat) (consumed : Nat)
    (h0 : b ≠ 0) (h1 : b ≠ 1) :
    deserialize_bool (0 :: rest) consumed =
        Except.ok (false, rest, consumed + 1) ∧
    deserialize_bool (1 :: rest) consumed =
        Except.ok (true, rest, consumed + 1) ∧
    deserialize_bool (b :: rest) consumed = Except.error boolDomainMsg := by
  refine ⟨rfl, rfl, ?_⟩
  unfold deserialize_bool readU8
  simp only [if_neg h1, if_neg h0]

/-- Witness for C7 at the byte 0x02. -/
theorem C7_bool_domain_witness :
    deserialize_bool [2] 0 = Except.error boolDomainMsg :=
  (C7_bool_domain 2 [] 0 (by decide) (by decide)).2.2

/-- C3: text encoding writes the 4-byte unsigned-32 length header, then
the per-character data bytes, then exactly `4 - (len % 4)` zero bytes —
a pad count always between 1 and 4, and a full 4-byte pad when the
length is already a multiple of 4. -/
theorem C3_str_padding (s : List Nat) (h : utf8Len s < 2 ^ 32) :
    serialize_str s =
      u32be (utf8Len s) ++ (s.map serialize_char).flatten
        ++ List.replicate (4 - utf8Len s % 4) 0 ∧
    (u32be (utf8Len s)).length = 4 ∧
    (serialize_str s).length = 4 + s.length + (4 - utf8Len s % 4) ∧
    1 ≤ 4 - utf8Len s % 4 ∧
    4 - utf8Len s % 4 ≤ 4 ∧
    (utf8Len s % 4 = 0 → 4 - utf8Len s % 4 = 4) := by
  have hmod : utf8Len s % 2 ^ 32 = utf8Len s := Nat.mod_eq_of_lt h
  have hflat : ((s.map serialize_char).flatten).length = s.length := by
    rw [flatten_serialize_char]
    simp
  refine ⟨by rw [serialize_str, hmod], by simp [u32be], ?_, by omega, by omega,
    by omega⟩
  rw [serialize_str]
  simp only [List.length_append, List.length_replicate, u32be,
    List.length_cons, List.length_nil, hflat]

/-- Witness for C3 at a 4-character single-byte text: a full 4-byte pad
is written. -/
theorem C3_str_padding_witness :
    4 - utf8Len [65, 66, 67, 68] % 4 = 4 :=
  (C3_str_padding [65, 66, 67, 68] (by decide)).2.2.2.2.2 (by decide)

/-- C4 exhibits the decode-side padding bug: `deserialize_string` reads
the 4-byte header and the `len` data bytes and adds
`4 + len + (4 - len % 4)` to the consumed counter, but the padding bytes
are never read from the source — they are still at the head of the
remaining stream. The concrete conjunct decodes the framed text
`[0,0,0,1,65,0,0,0]` and leaves its 3 pad bytes unread while reporting 8
bytes consumed. -/
theorem C4_padding_counted_not_consumed (count : Nat) (hcount : count < 2 ^ 32)
    (data rest : List Nat) (hlen : data.length = count) :
    deserialize_string (u32be count ++ (data ++ rest)) 0 =
      Except.ok (data, rest, 0 + (4 - count % 4 + count + 4)) ∧
    deserialize_string [0, 0, 0, 1, 65, 0, 0, 0] 0 =
      Except.ok ([65], [0, 0, 0], 8) := by
  refine ⟨?_, rfl⟩
  have hread : readBytes count (data ++ rest) = some (data, rest) := by
    rw [← hlen]
    exact readBytes_exact data rest
  simp only [deserialize_string, readU32_u32be count hcount, hread]

/-- Witness for C4 at the one-byte text framed with 3 pad bytes. -/
theorem C4_padding_counted_not_consumed_witness :
    deserialize_string (u32be 1 ++ ([65] ++ [0, 0, 0])) 0 =
      Except.ok ([65], [0, 0, 0], 0 + (4 - 1 % 4 + 1 + 4)) :=
  (C4_padding_counted_not_consumed 1 (by decide) [65] [0, 0, 0] (by decide)).1

/-- C2 is violated by the code: encoding the supported struct value with
fields `("", 7u32)` and decoding the resulting 12-byte buffer yields the
struct `("", 0)` — `bytes_consumed` does equal the buffer length, but
the second field decodes from the never-consumed string padding, so
`decode(encode(v)) ≠ v`. -/
theorem C2_roundtrip_failure :
    to_bytes (XdrValue.structV (XdrValueList.cons (XdrValue.strV [])
        (XdrValueList.cons (XdrValue.u32V 7) XdrValueList.nil))) =
      [0, 0, 0, 0, 0, 0, 0, 0, 0, 0, 0, 7] ∧
    from_bytes (Shape.structT (ShapeFields.cons Shape.strT
        (ShapeFields.cons Shape.u32T ShapeFields.nil)))
        [0, 0, 0, 0, 0, 0, 0, 0, 0, 0, 0, 7] =
      Except.ok (XdrValue.structV (XdrValueList.cons (XdrValue.strV [])
        (XdrValueList.cons (XdrValue.u32V 0) XdrValueList.nil)), 12) ∧
    XdrValue.u32V 0 ≠ XdrValue.u32V 7 := by
  refine ⟨rfl, rfl, ?_⟩
  intro h
  injection h with h2
  exact absurd h2 (by decide)

/-- C6: through the `xdr_enum!` serializer a payload-less variant is
written as a signed-32 big-endian rendering of its declared numeric
value, which differs from the rendering of its list position whenever
the declared value is not that position. -/
theorem C6_enum_declared_value (table : List (String × Int))
    (i : Fin table.length) (hlo : -(2 ^ 31) ≤ (table.get i).2)
    (hhi : (table.get i).2 < 2 ^ 31) (hi : (i : Nat) < 2 ^ 31) :
    xdr_enum_serialize table i = i32be (table.get i).2 ∧
    ((table.get i).2 ≠ ((i : Nat) : Int) →
      xdr_enum_serialize table i ≠ i32be (((i : Nat) : Int))) := by
  refine ⟨rfl, fun hne heq => ?_⟩
  unfold xdr_enum_serialize i32be at heq
  have hva : (0 : Int) ≤ (table.get i).2 % 2 ^ 32 :=
    Int.emod_nonneg _ (by norm_num)
  have hvb : (table.get i).2 % 2 ^ 32 < 2 ^ 32 :=
    Int.emod_lt_of_pos _ (by norm_num)
  have hia : (0 : Int) ≤ (((i : Nat) : Int)) % 2 ^ 32 :=
    Int.emod_nonneg _ (by norm_num)
  have hib : (((i : Nat) : Int)) % 2 ^ 32 < 2 ^ 32 :=
    Int.emod_lt_of_pos _ (by norm_num)
  have h1 : ((table.get i).2 % 2 ^ 32).toNat < 2 ^ 32 := by omega
  have h2 : ((((i : Nat) : Int)) % 2 ^ 32).toNat < 2 ^ 32 := by omega
  have h3 := u32be_inj h1 h2 heq
  apply hne
  omega

/-- Witness for C6 at the declared table `[("A", 5), ("B", 9)]`,
position 1: the wire bytes are those of the declared value 9, not of the
position 1. -/
theorem C6_enum_declared_value_witness :
    xdr_enum_serialize [("A", 5), ("B", 9)] ⟨1, by decide⟩ =
      i32be 9 ∧ xdr_enum_serialize [("A", 5), ("B", 9)] ⟨1, by decide⟩ ≠
      i32be 1 :=
  ⟨(C6_enum_declared_value [("A", 5), ("B", 9)] ⟨1, by decide⟩ (by decide)
      (by decide) (by decide)).1,
    (C6_enum_declared_value [("A", 5), ("B", 9)] ⟨1, by decide⟩ (by decide)
      (by decide) (by decide)).2 (by decide)⟩

/-- C8: a 3-element sequence of 4-byte elements encodes to exactly 16
bytes (count then elements); decoding reads the count once on the first
`next_element_seed` call, hands elements back one at a time while the
cached count steps 2, 1, 0, and signals end-of-sequence (a `none`
element) once the count is zero; the full decode returns the 3 elements
with all 16 bytes consumed. -/
theorem C8_sequence_framing (a b c : Nat) (ha : a < 2 ^ 32) (hb : b < 2 ^ 32)
    (hc : c < 2 ^ 32) :
    (to_bytes (XdrValue.seqV (XdrValueList.cons (XdrValue.u32V a)
        (XdrValueList.cons (XdrValue.u32V b)
          (XdrValueList.cons (XdrValue.u32V c) XdrValueList.nil))))).length =
      16 ∧
    from_bytes (Shape.seqT Shape.u32T)
        (to_bytes (XdrValue.seqV (XdrValueList.cons (XdrValue.u32V a)
          (XdrValueList.cons (XdrValue.u32V b)
            (XdrValueList.cons (XdrValue.u32V c) XdrValueList.nil))))) =
      Except.ok (XdrValue.seqV (XdrValueList.cons (XdrValue.u32V a)
        (XdrValueList.cons (XdrValue.u32V b)
          (XdrValueList.cons (XdrValue.u32V c) XdrValueList.nil))), 16) ∧
    next_element_seed (decodeVal Shape.u32T) none
        (to_bytes (XdrValue.seqV (XdrValueList.cons (XdrValue.u32V a)
          (XdrValueList.cons (XdrValue.u32V b)
            (XdrValueList.cons (XdrValue.u32V c) XdrValueList.nil))))) 0 =
      Except.ok (some (XdrValue.u32V a), some 2,
        u32be b ++ (u32be c ++ []), 8) ∧
    next_element_seed (decodeVal Shape.u32T) (some 2)
        (u32be b ++ (u32be c ++ [])) 8 =
      Except.ok (some (XdrValue.u32V b), some 1, u32be c ++ [], 12) ∧
    next_element_seed (decodeVal Shape.u32T) (some 1) (u32be c ++ []) 12 =
      Except.ok (some (XdrValue.u32V c), some 0, [], 16) ∧
    next_element_seed (decodeVal Shape.u32T) (some 0) [] 16 =
      Except.ok (none, some 0, [], 16) := by
  have hbytes : to_bytes (XdrValue.seqV (XdrValueList.cons (XdrValue.u32V a)
      (XdrValueList.cons (XdrValue.u32V b)
        (XdrValueList.cons (XdrValue.u32V c) XdrValueList.nil)))) =
      u32be 3 ++ (u32be a ++ (u32be b ++ (u32be c ++ []))) := by
    simp only [to_bytes, encodeVal, encodeList, XdrValueList.length]
    rw [Nat.mod_eq_of_lt ha, Nat.mod_eq_of_lt hb, Nat.mod_eq_of_lt hc]
    norm_num
  refine ⟨?_, ?_, ?_, ?_, ?_, ?_⟩
  · rw [hbytes]
    simp [u32be]
  · rw [hbytes]
    simp only [from_bytes, decodeVal, decodeElemsWith,
      readU32_u32be 3 (by norm_num), readU32_u32be a ha,
      readU32_u32be b hb, readU32_u32be c hc, readU32_u32be_nil c hc,
      List.append_nil]
  · rw [hbytes]
    simp only [next_element_seed, readU32_u32be 3 (by norm_num),
      decodeVal_u32 a ha]
    norm_num
  · simp only [next_element_seed, decodeVal_u32 b hb]
    norm_num
  · simp only [next_element_seed, decodeVal_u32 c hc]
    norm_num
  · rfl

/-- Witness for C8 at the sequence of unsigned-32 values 1, 2, 3. -/
theorem C8_sequence_framing_witness :
    (to_bytes (XdrValue.seqV (XdrValueList.cons (XdrValue.u32V 1)
        (XdrValueList.cons (XdrValue.u32V 2)
          (XdrValueList.cons (XdrValue.u32V 3) XdrValueList.nil))))).length =
      16 :=
  (C8_sequence_framing 1 2 3 (by decide) (by decide) (by decide)).1

/-- C9: the length header of a text encode is the UTF-8 byte length
while the data bytes are one low-8-bit-truncated byte per character —
so the header equals the data byte count exactly when every character is
single-byte, and strictly exceeds it as soon as one character needs more
than one UTF-8 byte. -/
theorem C9_header_vs_bytes_written (s : List Nat) (h : utf8Len s < 2 ^ 32) :
    serialize_str s =
      u32be (utf8Len s) ++ (s.map (fun c => c % 256)
        ++ List.replicate (4 - utf8Len s % 4) 0) ∧
    (s.map (fun c => c % 256)).length = s.length ∧
    ((∀ c ∈ s, utf8Size c = 1) → utf8Len s = s.length) ∧
    ((∃ c ∈ s, 1 < utf8Size c) → s.length < utf8Len s) := by
  refine ⟨?_, by simp, utf8Len_eq_length s, ?_⟩
  · rw [serialize_str, Nat.mod_eq_of_lt h, flatten_serialize_char,
      List.append_assoc]
  · rintro ⟨c, hc, hbig⟩
    exact length_lt_utf8Len s c hc hbig

/-- Witness for C9 at the single snowman character U+2603: the header
says 3 bytes, the data written is 1 byte. -/
theorem C9_header_vs_bytes_written_witness :
    ([0x2603] : List Nat).length < utf8Len [0x2603] :=
  (C9_header_vs_bytes_written [0x2603] (by decide)).2.2.2
    ⟨0x2603, by decide, by decide⟩

end SerdeXdr
